import Mathlib

/-!
Verification of the pygentify tool-calling core.

This file gives a shallow embedding, in Lean, of the tag-based tool-use
protocol and the agent orchestration code of the pygentify repository
(`pygentic/tool_calling.py`, `pygentic/completion.py`, `pygentic/__init__.py`,
`pygentic/chat_render.py`, `pygentic/misc.py`), together with theorems about
the embedded functions.

Python strings are modelled as Lean `String`/`List Char`; Python dicts that
hold JSON data are modelled as association lists (Python dicts preserve
insertion order, as do association lists); Python exceptions are modelled
with `Except`/explicit outcome types.  The Python `json` library is external
to the repository; it is modelled here by an executable codec
(`membersChars`/`dumpJVal` for `json.dumps`, `jsonLoads` for `json.loads`)
that is faithful on the fragment the protocol produces: top-level objects
whose values are strings or flat string-to-string objects, printable
characters escaped as Python does for quote and backslash.  Model boundaries
are stated in the doc comment of each affected definition.
-/

namespace Pygentify

/-! ## Generic string utilities -/

/-- Whitespace characters skipped by the JSON grammar. -/
def isWsChar (c : Char) : Bool :=
  ([' ', '\t', '\n', '\r'] : List Char).contains c

/-- Drop leading JSON whitespace from a character list. -/
def skipWs : List Char → List Char
  | [] => []
  | c :: cs => if isWsChar c then skipWs cs else c :: cs

/-- First index (if any) at which `needle` occurs as a contiguous sublist of
`hay`; models Python `in` / `str.index`. -/
def idxOfSub (needle : List Char) : List Char → Option Nat
  | [] => if needle.isPrefixOf ([] : List Char) then some 0 else none
  | c :: rest =>
    if needle.isPrefixOf (c :: rest) then some 0
    else (idxOfSub needle rest).map (· + 1)

/-- Replace every occurrence of `pat` in the list by `rep`, left to right and
without overlap; models Python `str.replace` for a non-empty pattern. -/
def replaceAllGo (pat rep : List Char) : Nat → List Char → List Char
  | _, [] => []
  | 0, l => l
  | fuel + 1, c :: rest =>
    if pat ≠ [] ∧ pat.isPrefixOf (c :: rest) then
      rep ++ replaceAllGo pat rep fuel ((c :: rest).drop pat.length)
    else
      c :: replaceAllGo pat rep fuel rest

/-- Replace every occurrence of `pat` by `rep`, left to right and without
overlap; models Python `str.replace` for a non-empty pattern.  The fuel
starts at the list length and each step consumes at least one character, so
it never runs out. -/
def replaceAllL (pat rep : List Char) (l : List Char) : List Char :=
  replaceAllGo pat rep l.length l

/-- String version of `replaceAllL`. -/
def strReplace (s pat rep : String) : String :=
  ⟨replaceAllL pat.data rep.data s.data⟩

/-! ## Tag protocol constants (`SimpleTagBasedToolUse.create_default`) -/

def startTag : String := "<|tool_use_start|>"
def endTag : String := "<|tool_use_end|>"
def resultStartTag : String := "<|result_start|>"
def resultEndTag : String := "<|result_end|>"
def errorStartTag : String := "<|error_start|>"
def errorEndTag : String := "<|error_end|>"

/-! ## Locating a command region (`GenericToolUse.find`)

The default instance searches with the regex
`\<\|tool_use_start\|\>([^<]*)\<\|tool_use_end\|\>`: the leftmost position
where the literal start tag occurs, followed by a run of characters other
than `<` (the body), followed by the literal end tag.  Because the end tag
begins with `<`, a match at a given offset exists exactly when the end tag
follows the maximal `<`-free run there, so backtracking never helps and the
scan below is equivalent to `re.search`. -/

/-- Search for `startL ([^<]*) endL` from offset `pos` onwards; returns
`(match offset, match length, body)` like `find` in the source. -/
def findFrom (startL endL : List Char) (pos : Nat) (l : List Char) :
    Option (Nat × Nat × String) :=
  let found :=
    if startL.isPrefixOf l then
      let after := l.drop startL.length
      let body := after.takeWhile (fun ch => ch != '<')
      let after2 := after.drop body.length
      if endL.isPrefixOf after2 then
        some (pos, startL.length + body.length + endL.length, (⟨body⟩ : String))
      else none
    else none
  match found with
  | some r => some r
  | none =>
    match l with
    | [] => none
    | _ :: rest => findFrom startL endL (pos + 1) rest

/-- Embeds `GenericToolUse.find` for the default tags: offset, total length
and body of the first command region, or `none` for `ToolUseNotFoundError`. -/
def findToolUse (s : String) : Option (Nat × Nat × String) :=
  findFrom startTag.data endTag.data 0 s.data

/-- Embeds `ToolUse.contains_tool_use`: whether `find` succeeds. -/
def containsToolUse (s : String) : Bool :=
  (findToolUse s).isSome

/-! ## JSON values and serialization (model of the external `json` library)

The protocol only ever serializes `{"tool_name": <value>, "args": <value>}`
where the values are strings or flat string-to-string objects, so the model
restricts JSON values to that fragment.  `json.dumps` is modelled with its
default separators `", "` and `": "`; string escaping is modelled for
backslash and double quote (Python additionally escapes control and
non-ASCII characters, which are outside this model). -/

/-- A JSON value of the fragment used by the protocol: a string, or a flat
object mapping strings to strings. -/
inductive JVal where
  | s (v : String)
  | o (kvs : List (String × String))
deriving DecidableEq

/-- Escape one character as Python `json.dumps` does, restricted to the
printable fragment: backslash and quote get a backslash, the rest pass
through. -/
def jsonEscapeChar (c : Char) : List Char :=
  if c = '\\' then ['\\', '\\']
  else if c = '"' then ['\\', '"']
  else [c]

/-- Escape a whole character list. -/
def escapeChars : List Char → List Char
  | [] => []
  | c :: cs => jsonEscapeChar c ++ escapeChars cs

/-- Serialize a string with surrounding quotes. -/
def quoteStr (s : String) : List Char :=
  '"' :: escapeChars s.data ++ ['"']

/-- Serialize one `"key": "value"` member. -/
def memberChars1 (kv : String × String) : List Char :=
  quoteStr kv.1 ++ ':' :: ' ' :: quoteStr kv.2

/-- Serialize the remaining members, each preceded by the separator `", "`. -/
def membersTail : List (String × String) → List Char
  | [] => []
  | kv :: rest => ',' :: ' ' :: (memberChars1 kv ++ membersTail rest)

/-- Serialize the members of a flat object with separators `", "` and
`": "`, as `json.dumps` does by default. -/
def membersChars : List (String × String) → List Char
  | [] => []
  | kv :: rest => memberChars1 kv ++ membersTail rest

/-- Serialize a flat object. -/
def dumpsFlatObj (kvs : List (String × String)) : List Char :=
  '\x7b' :: membersChars kvs ++ ['\x7d']

/-- Serialize a `JVal`. -/
def dumpJVal : JVal → List Char
  | .s v => quoteStr v
  | .o kvs => dumpsFlatObj kvs

/-- Embeds `json.dumps({'tool_name': name, 'args': args})`, the body built
by the `render*` methods of `GenericToolUse`. -/
def dumpsToolUseJ (name args : JVal) : String :=
  ⟨'\x7b' :: (quoteStr "tool_name" ++ ':' :: ' ' :: dumpJVal name ++
    ',' :: ' ' :: quoteStr "args" ++ ':' :: ' ' :: dumpJVal args ++ ['\x7d'])⟩

/-- The body for a string tool name and a flat argument mapping. -/
def dumpsToolUse (name : String) (args : List (String × String)) : String :=
  dumpsToolUseJ (.s name) (.o args)

/-! ## JSON parsing (model of `json.loads` on the same fragment) -/

/-- Decode one escape character. -/
def unescapeChar (c : Char) : Option Char :=
  if c = 'n' then some '\n'
  else if c = 't' then some '\t'
  else if c = 'r' then some '\r'
  else if c = '"' then some c
  else if c = '\\' then some c
  else if c = '/' then some c
  else none

/-- Parse the contents of a JSON string after the opening quote, one
character at a time; the flag records that the previous character opened an
escape.  Returns the decoded characters and the input after the closing
quote. -/
def parseStringGo : Bool → List Char → Option (List Char × List Char)
  | _, [] => none
  | true, e :: rest =>
    match unescapeChar e with
    | some ch => (parseStringGo false rest).map fun p => (ch :: p.1, p.2)
    | none => none
  | false, c :: rest =>
    if c = '"' then some ([], rest)
    else if c = '\\' then parseStringGo true rest
    else (parseStringGo false rest).map fun p => (c :: p.1, p.2)

/-- Parse the contents of a JSON string after the opening quote. -/
def parseStringBody (l : List Char) : Option (List Char × List Char) :=
  parseStringGo false l

/-- Parse a JSON string literal including the opening quote. -/
def parseJString (l : List Char) : Option (String × List Char) :=
  match l with
  | [] => none
  | c :: rest =>
    if c = '"' then (parseStringBody rest).map fun p => ((⟨p.1⟩ : String), p.2)
    else none

/-- Parse one or more `"key": "value"` members of a flat object, consuming
the closing brace.  `fuel` bounds the number of members. -/
def parseFlatMembers : Nat → List Char → Option (List (String × String) × List Char)
  | 0, _ => none
  | fuel + 1, l =>
    match parseJString l with
    | none => none
    | some (k, r1) =>
      match skipWs r1 with
      | [] => none
      | c :: r2 =>
        if c = ':' then
          match parseJString (skipWs r2) with
          | none => none
          | some (v, r3) =>
            match skipWs r3 with
            | [] => none
            | c2 :: r4 =>
              if c2 = ',' then
                match parseFlatMembers fuel (skipWs r4) with
                | none => none
                | some (kvs, r5) => some ((k, v) :: kvs, r5)
              else if c2 = '\x7d' then some ([(k, v)], r4)
              else none
        else none

/-- Parse a flat string-to-string object including both braces. -/
def parseFlatObj (fuel : Nat) (l : List Char) : Option (List (String × String) × List Char) :=
  match l with
  | [] => none
  | c :: rest =>
    if c = '\x7b' then
      match skipWs rest with
      | [] => none
      | c2 :: r => if c2 = '\x7d' then some ([], r) else parseFlatMembers fuel (c2 :: r)
    else none

/-- Parse a value of the modelled fragment: a string or a flat object. -/
def parseJVal (fuel : Nat) (l : List Char) : Option (JVal × List Char) :=
  match l with
  | [] => none
  | c :: _ =>
    if c = '"' then (parseJString l).map fun p => (JVal.s p.1, p.2)
    else if c = '\x7b' then (parseFlatObj fuel l).map fun p => (JVal.o p.1, p.2)
    else none

/-- Parse one or more `"key": value` members of the top-level object,
consuming the closing brace. -/
def parseTopMembers : Nat → List Char → Option (List (String × JVal) × List Char)
  | 0, _ => none
  | fuel + 1, l =>
    match parseJString l with
    | none => none
    | some (k, r1) =>
      match skipWs r1 with
      | [] => none
      | c :: r2 =>
        if c = ':' then
          match parseJVal fuel (skipWs r2) with
          | none => none
          | some (v, r3) =>
            match skipWs r3 with
            | [] => none
            | c2 :: r4 =>
              if c2 = ',' then
                match parseTopMembers fuel (skipWs r4) with
                | none => none
                | some (kvs, r5) => some ((k, v) :: kvs, r5)
              else if c2 = '\x7d' then some ([(k, v)], r4)
              else none
        else none

/-- Parse the top-level object including both braces and leading whitespace. -/
def parseTopObj (fuel : Nat) (l : List Char) : Option (List (String × JVal) × List Char) :=
  match skipWs l with
  | [] => none
  | c :: rest =>
    if c = '\x7b' then
      match skipWs rest with
      | [] => none
      | c2 :: r => if c2 = '\x7d' then some ([], r) else parseTopMembers fuel (c2 :: r)
    else none

/-- No character of the string is the delimiter character `<`. -/
def NoLt (s : String) : Prop := ∀ c ∈ s.data, c ≠ '<'

/-- Embeds `json.loads` on the modelled fragment: a top-level object with at
most trailing whitespace, `none` for `json.JSONDecodeError`.  (Python also
accepts scalar top-level documents; those are outside the fragment the
protocol emits and outside this model.) -/
def jsonLoads (s : String) : Option (List (String × JVal)) :=
  match parseTopObj (s.data.length + 1) s.data with
  | some (kvs, rest) => if skipWs rest = [] then some kvs else none
  | none => none

/-! ## Rendering (`GenericToolUse.render*` with the default templates)

The default templates are `start {} end`, `start {} end resultStart {} resultEnd`
and `start {} end errorStart {} errorEnd`; `str.format` fills the placeholders,
so rendering is plain concatenation. -/

/-- Embeds `GenericToolUse.render`: the call template around the JSON body. -/
def renderCallJ (name args : JVal) : String :=
  startTag ++ dumpsToolUseJ name args ++ endTag

/-- `render` for a string name and flat argument mapping, the shape the
protocol produces. -/
def renderCall (name : String) (args : List (String × String)) : String :=
  renderCallJ (.s name) (.o args)

/-- Embeds `GenericToolUse.render_with_success` (default templates). -/
def renderWithSuccessJ (name args : JVal) (result : String) : String :=
  startTag ++ dumpsToolUseJ name args ++ endTag ++
    resultStartTag ++ result ++ resultEndTag

/-- Embeds `GenericToolUse.render_with_error` (default templates). -/
def renderWithErrorJ (name args : JVal) (error : String) : String :=
  startTag ++ dumpsToolUseJ name args ++ endTag ++
    errorStartTag ++ error ++ errorEndTag

/-- Embeds `GenericToolUse.render_with_syntax_error`: the default instance
has an empty `syntax_error_template`, which is falsy, so the error template
is used with the raw body in place of the serialized payload. -/
def renderWithSyntaxError (body error : String) : String :=
  startTag ++ body ++ endTag ++ errorStartTag ++ error ++ errorEndTag

/-! ## Parsing a command body -/

/-- The `ValueError`s that `GenericToolUse.parse` can raise: a wrapped
`json.JSONDecodeError` (recorded with the document that failed to decode,
since the library's diagnostic is a function of that document), or a missing
`tool_name` key. -/
inductive PyValueError where
  | invalidJson (doc : String)
  | noToolName
deriving DecidableEq

/-- Models the message text of the external `json` library's decode error
for a document; its exact wording is library-internal, so the model treats
it as an opaque function of the document. -/
def jsonDecodeErrorDetail (doc : String) : String := doc

/-- Embeds the message of the `ValueError`s raised by `GenericToolUse.parse`. -/
def valueErrorMsg : PyValueError → String
  | .invalidJson doc => "Invalid JSON string: " ++ jsonDecodeErrorDetail doc
  | .noToolName => "Tool name not found in JSON string"

/-- Embeds `GenericToolUse.parse`: decode the body, require a `tool_name`
key, and default `args` to the empty object. -/
def genericParse (text : String) : Except PyValueError (JVal × JVal) :=
  match jsonLoads text with
  | none => .error (.invalidJson text)
  | some data =>
    match data.lookup "tool_name" with
    | some tn => .ok (tn, (data.lookup "args").getD (.o []))
    | none => .error .noToolName

/-- Embeds `SimpleTagBasedToolUse.parse`: on a `ValueError`, append one
closing brace and retry once; if the retry also fails, raise the original
error. -/
def simpleParse (text : String) : Except PyValueError (JVal × JVal) :=
  match genericParse text with
  | .ok r => .ok r
  | .error e =>
    match genericParse (text ++ "\x7d") with
    | .ok r => .ok r
    | .error _ => .error e

/-- Embeds `ToolAugmentedTextCompleter._parse`: the same append-one-brace
retry, applied on top of the helper's `parse` (which is `simpleParse` for
the default helper). -/
def completerParse (body : String) : Except PyValueError (JVal × JVal) :=
  match simpleParse body with
  | .ok r => .ok r
  | .error e =>
    match simpleParse (body ++ "\x7d") with
    | .ok r => .ok r
    | .error _ => .error e

/-! ## Python exceptions and their `str()` rendering -/

/-- The Python exceptions appearing in the modelled paths.  Each constructor
records the positional args of the exception where they matter. -/
inductive PyExc where
  | typeError (msg : String)
  | attributeError (msg : String)
  | keyError (key : String)
  | toolDoesNotExist (args : List String)
  | badToolUse (msg : String)
  | toolUseError (msg : String)
  | toolUseFailed
  | tooManyRounds (msg : String)
deriving DecidableEq

/-- Models CPython `Exception.__str__`: empty for no args, the sole arg for
one, and the `repr` of the args tuple otherwise. -/
def pyStrOfArgs : List String → String
  | [] => ""
  | [a] => a
  | args =>
    "(" ++ String.intercalate ", "
      (args.map fun a => String.singleton (Char.ofNat 39) ++ a ++ String.singleton (Char.ofNat 39)) ++ ")"

/-- The positional args of each modelled exception. -/
def pyExcArgs : PyExc → List String
  | .typeError m => [m]
  | .attributeError m => [m]
  | .keyError k => [k]
  | .toolDoesNotExist args => args
  | .badToolUse m => [m]
  | .toolUseError m => [m]
  | .toolUseFailed => []
  | .tooManyRounds m => [m]

/-- Models `str(e)` for a modelled exception. -/
def pyStrExc (e : PyExc) : String :=
  pyStrOfArgs (pyExcArgs e)

/-- Models `e.args[0]` for a modelled exception (empty when absent). -/
def pyArg0 (e : PyExc) : String :=
  (pyExcArgs e).headD ""

/-! ## Tool invocation (`ToolCaller` in `pygentic/__init__.py`)

A tool capability is external; it is modelled as a function from the
argument mapping to a result or a raised exception (`typeError` models a
Python `TypeError` from a wrong argument shape). -/

/-- An external tool capability. -/
def PyTool := JVal → Except PyExc String

/-- Embeds `ToolCaller._use_tool`: unknown names raise
`ToolDoesNotExistError(f'Tool "{name}" not found', name)` (two args);
`TypeError` from the call becomes `BadToolUseError`, any other exception
becomes `ToolUseError`. -/
def useTool (tools : List (String × PyTool)) (name : String) (argDict : JVal) :
    Except PyExc String :=
  match tools.lookup name with
  | none => .error (.toolDoesNotExist ["Tool \"" ++ name ++ "\" not found", name])
  | some f =>
    match f argDict with
    | .ok r => .ok r
    | .error (.typeError m) =>
      .error (.badToolUse ("Calling tool \"" ++ name ++ "\" resulted in error: " ++ m))
    | .error e =>
      .error (.toolUseError ("Calling tool \"" ++ name ++ "\" resulted in error: " ++ pyArg0 e))

/-- Embeds `ToolCaller.__call__`: every exception from `_use_tool` is caught
and rendered with the error template, successes with the success template. -/
def toolCallerCall (tools : List (String × PyTool)) (name : String) (argDict : JVal) :
    String :=
  match useTool tools name argDict with
  | .ok result => renderWithSuccessJ (.s name) argDict result
  | .error e => renderWithErrorJ (.s name) argDict (pyStrExc e)

/-! ## Response classification (`ToolAugmentedTextCompleter` in `completion.py`) -/

/-- The external collaborators reachable from the completer's agent: its
tool mapping, its optional parent's `ask_question` entry point, and its
child nodes.  All are external capabilities, modelled as functions. -/
structure PyAgent where
  tools : List (String × PyTool)
  parent : Option (JVal → Except PyExc String)
  subAgents : List (String × (JVal → Except PyExc String))

/-- Embeds `handle_clarify`: `agent.parent.ask_question(arg_dict["text"])`.
A missing parent raises `AttributeError`; a missing key raises `KeyError`;
indexing a string argument mapping raises `TypeError`. -/
def handleClarify (agent : PyAgent) (argDict : JVal) : Except PyExc String :=
  match argDict with
  | .s _ => .error (.typeError "string indices must be integers")
  | .o kvs =>
    match kvs.lookup "text" with
    | none => .error (.keyError "text")
    | some text =>
      match agent.parent with
      | none => .error (.attributeError "NoneType object has no attribute ask_question")
      | some ask => ask (.s text)

/-- Embeds `handle_delegate`: `agent.sub_agents[arg_dict["name"]](arg_dict["inputs"])`.
Missing keys raise `KeyError`; an unknown child name raises `KeyError`. -/
def handleDelegate (agent : PyAgent) (argDict : JVal) : Except PyExc String :=
  match argDict with
  | .s _ => .error (.typeError "string indices must be integers")
  | .o kvs =>
    match kvs.lookup "name" with
    | none => .error (.keyError "name")
    | some name =>
      match kvs.lookup "inputs" with
      | none => .error (.keyError "inputs")
      | some inputs =>
        match agent.subAgents.lookup name with
        | none => .error (.keyError name)
        | some child => child (.s inputs)

/-- Embeds `handle_tool_use`: looks up `arg_dict["name"]` in the tool
mapping and calls it with the whole argument mapping. -/
def handleToolUse (agent : PyAgent) (argDict : JVal) : Except PyExc String :=
  match argDict with
  | .s _ => .error (.typeError "string indices must be integers")
  | .o kvs =>
    match kvs.lookup "name" with
    | none => .error (.keyError "name")
    | some name =>
      match agent.tools.lookup name with
      | none => .error (.toolDoesNotExist ["Tool \"" ++ name ++ "\" not found"])
      | some f => f argDict

/-- Embeds `ActionDispatcher.__call__` with the handler table of
`ToolAugmentedTextCompleter._perform_action` (`clarify`, `delegate`,
`use_tool`): `failure` raises; a name with no handler falls back to the
agent's tool mapping, raising `ToolDoesNotExistError` when absent and
classifying call-time failures into `BadToolUseError` (argument shape)
versus `ToolUseError` (tool raised). -/
def actionDispatcher (agent : PyAgent) (name : String) (argDict : JVal) :
    Except PyExc String :=
  if name = "failure" then .error .toolUseFailed
  else if name = "clarify" then handleClarify agent argDict
  else if name = "delegate" then handleDelegate agent argDict
  else if name = "use_tool" then handleToolUse agent argDict
  else
    match agent.tools.lookup name with
    | none => .error (.toolDoesNotExist ["Tool \"" ++ name ++ "\" not found"])
    | some f =>
      match f argDict with
      | .ok r => .ok r
      | .error (.typeError m) =>
        .error (.badToolUse ("Calling tool \"" ++ name ++ "\" resulted in error: " ++ m))
      | .error e =>
        .error (.toolUseError ("Calling tool \"" ++ name ++ "\" resulted in error: " ++ pyArg0 e))

/-- A classified response: `RegularResponse` or `SolutionResponse` from
`completion.py`. -/
inductive Finalized where
  | regular (text : String)
  | solution (text : String) (argDict : JVal)
deriving DecidableEq

/-- Embeds `ToolAugmentedTextCompleter._perform_action` applied to a parsed
action value: Python dispatches on the parsed `tool_name`, which need not be
a string; an object used as a dict key raises `TypeError`. -/
def performActionC (agent : PyAgent) (action : JVal) (argDict : JVal) :
    Except PyExc String :=
  match action with
  | .s name => actionDispatcher agent name argDict
  | .o _ => .error (.typeError "unhashable type: dict")

/-- Embeds `ToolAugmentedTextCompleter._finalize` (with `_get_tool_use_response`,
`_get_tool_use` and `_get_malformed_syntax_response` inlined; the source
calls `find` once through `contains_tool_use` and once in `_get_tool_use`,
on the same pure input, which the single `match` below merges): no command
region gives `RegularResponse` with the text unchanged; a region whose body
fails `_parse` gives the preamble plus the syntax-error rendering; a
`done_tool` command gives `SolutionResponse`; any other command is performed
and rendered as success or error. -/
def finalize (agent : PyAgent) (raw : String) : Finalized :=
  match findToolUse raw with
  | none => .regular raw
  | some (offset, _, body) =>
    let preToolText : String := ⟨raw.data.take offset⟩
    match completerParse body with
    | .error e => .regular (preToolText ++ renderWithSyntaxError body (valueErrorMsg e))
    | .ok (action, argDict) =>
      if action = JVal.s "done_tool" then .solution preToolText argDict
      else
        match performActionC agent action argDict with
        | .ok result => .regular (preToolText ++ renderWithSuccessJ action argDict result)
        | .error e => .regular (preToolText ++ renderWithErrorJ action argDict (pyStrExc e))

/-! ## The streaming tag filter (`Agent._stream_to_device`) -/

/-- The closure state of `on_token`: the `tool_use_seq` flag and the rolling
buffer. -/
structure StreamFilterState where
  toolUseSeq : Bool
  buffer : String
deriving DecidableEq

/-- Embeds one call of the `on_token` closure.  Statement order follows the
source: append the token to the buffer; if `tool_use_seq` is not set,
forward the token to the observer (returned as the second component); if the
start tag occurs in the buffer, set the flag and assign
`buffer[idx + len(buffer):]` (which is always the empty string, `idx` being
non-negative); then, on the updated buffer, the same for the end tag. -/
def streamStep (st : StreamFilterState) (token : String) :
    StreamFilterState × String :=
  let buffer := st.buffer ++ token
  let forwarded := if st.toolUseSeq then "" else token
  let s1 :=
    match idxOfSub startTag.data buffer.data with
    | some idx =>
      { toolUseSeq := true,
        buffer := (⟨buffer.data.drop (idx + buffer.data.length)⟩ : String) }
    | none => { toolUseSeq := st.toolUseSeq, buffer := buffer }
  let s2 :=
    match idxOfSub endTag.data s1.buffer.data with
    | some idx =>
      { toolUseSeq := false,
        buffer := (⟨s1.buffer.data.drop (idx + s1.buffer.data.length)⟩ : String) }
    | none => s1
  (s2, forwarded)

/-- Run the filter from a state over a token sequence, concatenating
everything forwarded to the observer. -/
def streamRunFrom (st : StreamFilterState) : List String → String
  | [] => ""
  | t :: ts =>
    let (st1, fwd) := streamStep st t
    fwd ++ streamRunFrom st1 ts

/-- Run the filter from its initial state (`tool_use_seq = False`, empty
buffer). -/
def streamRun (tokens : List String) : String :=
  streamRunFrom ⟨false, ""⟩ tokens

/-- What the specification promises the observer: the concatenation with
every start-tag-to-end-tag command region, tags inclusive, removed.  Written
from the spec to state the claim the filter is measured against. -/
def stripCommandRegions (fuel : Nat) (l : List Char) : List Char :=
  match fuel with
  | 0 => l
  | fuel + 1 =>
    match idxOfSub startTag.data l with
    | none => l
    | some i =>
      let pre := l.take i
      let rest := l.drop (i + startTag.data.length)
      match idxOfSub endTag.data rest with
      | none => l
      | some j => pre ++ stripCommandRegions fuel (rest.drop (j + endTag.data.length))

/-- Spec-side reference: `S` with every command region removed. -/
def specFiltered (s : String) : String :=
  ⟨stripCommandRegions s.data.length s.data⟩

/-! ## Chat rendering (`ChatRendererToString` in `chat_render.py`) -/

/-- A `misc.Message` object: an ordered list of text sections plus a role
tag (`Message` is a dataclass with fields `sections` and `role`;
`TextSection` carries a string). -/
structure PyMessage where
  sections : List String
  role : String
deriving DecidableEq

/-- Embeds `Message.__str__`: the sections joined with newlines. -/
def strMsg (m : PyMessage) : String :=
  String.intercalate "\n" m.sections

/-- The template dictionary keys read by `ChatRendererToString.__call__`
(the `continuationPrefix` key is never read by it). -/
structure TemplateSpec where
  question : String
  answer : String
  systemMessage : String
  startOfText : String
  promptSuffix : String
deriving DecidableEq

/-- Embeds `ChatRendererToString.__call__` for messages that are `Message`
objects (the source also duck-types dicts and plain strings; those carry no
role, so only `Message` inputs are relevant to role sensitivity): an
optional system block, then one block per message whose template is chosen
by the index parity of the `enumerate` loop, then the prompt suffix, with an
optional start-of-text prefix when `use_bos` is set (`False` by default). -/
def renderChat (spec : TemplateSpec) (useBos : Bool) (systemMessage : String)
    (messages : List PyMessage) : String :=
  let conv0 := if systemMessage = "" then ""
    else strReplace spec.systemMessage "%message" systemMessage
  let conv1 := (messages.enum).foldl
    (fun acc p =>
      let template := if p.1 % 2 = 0 then spec.question else spec.answer
      acc ++ strReplace template "%message" (strMsg p.2)) conv0
  let conv2 := conv1 ++ spec.promptSuffix
  if useBos then spec.startOfText ++ conv2 else conv2

/-- Reference recursion for the message blocks: block `i` uses the question
template when `i` is even and the answer template when `i` is odd. -/
def chatBody (spec : TemplateSpec) : Nat → List PyMessage → String
  | _, [] => ""
  | i, m :: rest =>
    strReplace (if i % 2 = 0 then spec.question else spec.answer) "%message" (strMsg m) ++
      chatBody spec (i + 1) rest

/-! ## `ChatHistory` with object identity (`ChatHistory.clone`, `misc.Message.clone`)

Python lists and `Message` objects live on a heap and are passed by
reference; `ChatHistory.clone` copies the message *list* (`messages[:]`)
but not the `Message` objects it contains.  To express sharing, the heap is
explicit: `lists` holds list objects (each a list of message ids, indexed
by position of allocation) and `msgs` holds `Message` objects. -/

/-- The heap of list objects and message objects. -/
structure MsgHeap where
  lists : List (List Nat)
  msgs : List PyMessage
deriving DecidableEq

/-- A `ChatHistory`: its (immutable, by-value) system message and a
reference to its thread's message-list object. -/
structure ChatHistoryR where
  systemMessage : String
  listRef : Nat
deriving DecidableEq

/-- Embeds `ChatHistory.clone`: a new history whose thread's message list is
the fresh list object `self.thread.messages[:]` — the same message ids —
and whose system message and template are taken over.  The `Message`
objects themselves are not copied. -/
def cloneHistory (heap : MsgHeap) (h : ChatHistoryR) : MsgHeap × ChatHistoryR :=
  let ids := heap.lists.getD h.listRef []
  ({ heap with lists := heap.lists ++ [ids] },
   { h with listRef := heap.lists.length })

/-- Embeds `Thread.add_message` reached from the history: allocate the
message object and append its id, in place, to the history's list object. -/
def addMessageR (heap : MsgHeap) (h : ChatHistoryR) (m : PyMessage) : MsgHeap :=
  let mid := heap.msgs.length
  let ids := heap.lists.getD h.listRef []
  { lists := heap.lists.set h.listRef (ids ++ [mid]),
    msgs := heap.msgs ++ [m] }

/-- In-place mutation of a message object's sections (e.g. assigning to a
`TextSection.content` of a message reachable from a history). -/
def mutateMessage (heap : MsgHeap) (mid : Nat) (newSections : List String) : MsgHeap :=
  { heap with
    msgs := heap.msgs.set mid ⟨newSections, (heap.msgs.getD mid ⟨[], ""⟩).role⟩ }

/-- The `Message` objects a history currently holds, via its list object. -/
def historyMessages (heap : MsgHeap) (h : ChatHistoryR) : List PyMessage :=
  (heap.lists.getD h.listRef []).map (fun mid => heap.msgs.getD mid ⟨[], ""⟩)

/-- Embeds `ChatHistory.full_text`: render the thread with the history's
template. -/
def fullTextR (spec : TemplateSpec) (heap : MsgHeap) (h : ChatHistoryR) : String :=
  renderChat spec false h.systemMessage (historyMessages heap h)

/-- Embeds `misc.Message.clone`: a fresh message whose sections are fresh
`TextSection`s with the same rendered content — a deep, value-equal copy.
(`ChatHistory.clone` does not call it.) -/
def msgClone (m : PyMessage) : PyMessage :=
  ⟨m.sections.map (fun s => s), m.role⟩

/-! ## The orchestrator loop (`Agent.__call__`, `ResponseProcessor`, `ToolCaller`) -/

/-- The mutable state the round loop touches: the committed history messages
and the scratch sections, both as rendered text.  (Each is only appended to
on the modelled paths, so a by-value list is faithful.) -/
structure AgentState where
  history : List String
  scratch : List String
deriving DecidableEq

/-- Outcome of `ResponseProcessor.__call__` when no exception escapes:
either the `SolutionComplete` control signal with the terminal argument
mapping, or a processed response string plus the updated state. -/
inductive RoundStep where
  | solution (argDict : JVal)
  | normal (response : String) (st : AgentState)
deriving DecidableEq

/-- Embeds `ResponseProcessor.__call__` together with `_get_action` and
`_perform_action`, for the processor that `Agent._prepare_processor` builds.
Notes on the source, reflected below:
  * the constructor call `ResponseProcessor(self, tool_use_helper, assistant,
    error_handler)` passes `error_handler` into the positional `raw_handler`
    slot, so `self.error_handler` is `None`; the raw branch would call the
    four-parameter `error_handler` closure with one argument (`TypeError`),
    but `Agent.__call__` only invokes the processor after
    `contains_tool_use` succeeded, so that branch is unreachable there;
  * `_perform_action` raises `SolutionComplete` for `done_tool` before any
    actor or handler runs;
  * the `delegate` pre-handler `do_before_delegate` reads
    `self.tool_use_helper` on the `Agent`, an attribute the class never
    sets (`tool_use_helper` is a local variable of `__call__`), raising
    `AttributeError`;
  * the `clarify` pre-handler `do_before_clarify` reads
    `arg_dict["text"]` and then flushes the scratchpad, whose `to_message`
    calls `Message(self.scratch)` without the required `role` argument,
    raising `TypeError`;
  * every other action name goes to `ToolCaller`, which returns a rendered
    string; the post-handler `do_after_tool` is declared with parameters
    `(self, action_response)` but invoked with a single argument, raising
    `TypeError` after the tool ran;
  * a parsed non-string action name is used as a dict key in
    `actors.get(action, ...)`, raising `TypeError` (unhashable). -/
def processResponse (tools : List (String × PyTool)) (response : String)
    (st : AgentState) : Except PyExc RoundStep :=
  match findToolUse response with
  | none =>
    .error (.typeError
      "error_handler() missing 3 required positional arguments: pre_tool_text, body, and resp_str")
  | some (offset, _, body) =>
    let preToolText : String := ⟨response.data.take offset⟩
    match simpleParse body with
    | .error e =>
      .ok (.normal (preToolText ++ renderWithSyntaxError body (valueErrorMsg e)) st)
    | .ok (action, argDict) =>
      if action = JVal.s "done_tool" then .ok (.solution argDict)
      else
        match action with
        | .o _ => .error (.typeError "unhashable type: dict")
        | .s name =>
          if name = "delegate" then
            .error (.attributeError "Agent object has no attribute tool_use_helper")
          else if name = "clarify" then
            match argDict with
            | .s _ => .error (.typeError "string indices must be integers")
            | .o kvs =>
              match kvs.lookup "text" with
              | none => .error (.keyError "text")
              | some _ =>
                .error (.typeError "Message.__init__ missing 1 required positional argument: role")
          else
            let _respStr := toolCallerCall tools name argDict
            .error (.typeError
              "do_after_tool() missing 1 required positional argument: action_response")

/-- Embeds `Scratchpad.to_text`, called in every round to assemble the
completer input: `str(self.to_message())` where `to_message` is
`Message(self.scratch)` — a call to the two-field dataclass constructor
with one argument, so Python raises `TypeError` before rendering. -/
def scratchToText (_scratch : List String) : Except PyExc String :=
  .error (.typeError "Message.__init__ missing 1 required positional argument: role")

/-- Embeds the attribute read `self.tool_use_helper` in `Agent.__call__`
(line 185): `Agent.__init__` never assigns this attribute (the helper is
only a local variable of `__call__`), so Python raises `AttributeError`. -/
def agentToolUseHelperAttr : Except PyExc Unit :=
  .error (.attributeError "Agent object has no attribute tool_use_helper")

/-- Embeds the round loop of `Agent.__call__` (lines 181-198): render the
context, complete (the completion capability is external and is modelled as
a round-indexed oracle `llm`), test for a command region, either stash
plain text in the scratchpad and continue, or process the response, halting
with the terminal argument mapping when `SolutionComplete` is caught;
`TooManyRoundsError` after the round budget. -/
def agentLoop (llm : Nat → String) (tools : List (String × PyTool)) :
    Nat → Nat → AgentState → Except PyExc JVal
  | 0, _, _ => .error (.tooManyRounds "Too many rounds of generation")
  | fuel + 1, round, st => do
    let _inputText ← scratchToText st.scratch
    let response := llm round
    let _ ← agentToolUseHelperAttr
    if ¬ containsToolUse response then
      agentLoop llm tools fuel (round + 1) { st with scratch := st.scratch ++ [response] }
    else
      match processResponse tools response st with
      | .error e => .error e
      | .ok (.solution argDict) => .ok argDict
      | .ok (.normal _ st1) => agentLoop llm tools fuel (round + 1) st1

/-- Embeds the call `Message.text_message(self.system_message)` opening
`Agent.__call__`: `text_message` takes `(text, role)` and the call passes
only `text`, so Python raises `TypeError` without entering the method. -/
def callTextMessageOneArg (_text : String) : Except PyExc PyMessage :=
  .error (.typeError "text_message() missing 1 required positional argument: role")

/-- Embeds `Agent._prepare_prompt_message`, which ends in
`Message(prompt_sections)` — the two-field dataclass constructor called
with one argument — raising `TypeError`. -/
def prepPromptMessage (_inputs : String) : Except PyExc PyMessage :=
  .error (.typeError "Message.__init__ missing 1 required positional argument: role")

/-- Embeds `ChatHistory.add_prompter_message`, which calls
`self._add_message()` while `_add_message(self, text)` requires the text
argument, raising `TypeError`. -/
def addPrompterMessage : Except PyExc Unit :=
  .error (.typeError "_add_message() missing 1 required positional argument: text")

/-- Embeds `Agent.__call__` end to end: build the system message and the
prompt message, write them to the output device, record the prompt, then
run the round loop. -/
def agentCall (llm : Nat → String) (tools : List (String × PyTool))
    (systemMessage : String) (inputs : String) (maxRounds : Nat) :
    Except PyExc JVal := do
  let _sysMsg ← callTextMessageOneArg systemMessage
  let _prompt ← prepPromptMessage inputs
  let _ ← addPrompterMessage
  agentLoop llm tools maxRounds 0 ⟨[], []⟩

/-! ## Delegation with retry (`Delegator` in `pygentic/__init__.py`) -/

/-- Modelled from the spec: the context-overflow conditions
`RunOutOfContextError` and `ParentOutOfContextError`.  Both classes are
imported from `pygentic.completion` but their definitions are absent from
the source tree; the spec describes them as typed, distinguishable
conditions, the second marking an overflow that originated in the parent
context.  Each carries its exception args. -/
inductive OverflowExc where
  | runOutOfContext (args : List String)
  | parentOutOfContext (args : List String)
deriving DecidableEq

/-- A child node as the delegator sees it: external, possibly stateful
across attempts (hence the attempt index), able to read and mutate the
parent's history (e.g. through escalation) and to either return a result or
raise an overflow condition. -/
def ChildNode := Nat → List String → Except OverflowExc String × List String

/-- Outcome of `Delegator._delegate`. -/
inductive DelegOutcome where
  | ok (result : String)
  | overflow (e : OverflowExc)
  | uncaught (e : OverflowExc)
  | raisedNone
deriving DecidableEq

/-- Embeds the retry loop of `Delegator._delegate`: on each iteration
restore the parent history from the backup, invoke the child, return its
result on success, remember a `RunOutOfContextError` and continue
otherwise; after the loop, re-raise the remembered condition (`raise exc`;
`exc` is still `None` only if the retry count is zero, which the source's
fixed default of 3 never is — `raisedNone` models Python raising `TypeError`
for `raise None`).  A `ParentOutOfContextError` is not a remembered
condition; it propagates out of the loop at once (third component: the
ghost trace of each attempt's input history, for specification only). -/
def delegateLoop (child : ChildNode) (backup : List String) :
    Nat → Nat → Option OverflowExc → List String →
    DelegOutcome × List String × List (List String)
  | _, 0, exc, h =>
    ((match exc with | some e => .overflow e | none => .raisedNone), h, [])
  | attempt, r + 1, _, _ =>
    let h1 := backup
    match child attempt h1 with
    | (.ok result, h2) => (.ok result, h2, [h1])
    | (.error (.runOutOfContext a), h2) =>
      let (out, hf, trace) :=
        delegateLoop child backup (attempt + 1) r (some (.runOutOfContext a)) h2
      (out, hf, h1 :: trace)
    | (.error (.parentOutOfContext a), h2) => (.uncaught (.parentOutOfContext a), h2, [h1])

/-- Embeds `Delegator._delegate` with its default bound of 3 attempts:
snapshot the parent history once (`backup_history`), then run the loop. -/
def delegateRun (child : ChildNode) (hist : List String) :
    DelegOutcome × List String × List (List String) :=
  let backup := hist
  delegateLoop child backup 0 3 none hist

/-- Outcome of `Delegator.__call__`. -/
inductive DelegCallOutcome where
  | response (s : String)
  | raised (e : OverflowExc)
  | pyError
deriving DecidableEq

/-- Embeds `Delegator.__call__`: a successful delegation is rendered with
the success template; a `ParentOutOfContextError` is re-raised as
`RunOutOfContextError(*e.args)`; a `RunOutOfContextError` is rendered with
the error template using `str(e)`. -/
def delegatorCall (child : ChildNode) (hist : List String) (argDict : JVal) :
    DelegCallOutcome × List String :=
  match delegateRun child hist with
  | (.ok result, h, _) =>
    (.response (renderWithSuccessJ (.s "delegate") argDict result), h)
  | (.overflow (.runOutOfContext a), h, _) =>
    (.response (renderWithErrorJ (.s "delegate") argDict (pyStrOfArgs a)), h)
  | (.overflow (.parentOutOfContext a), h, _) => (.raised (.runOutOfContext a), h)
  | (.uncaught (.parentOutOfContext a), h, _) => (.raised (.runOutOfContext a), h)
  | (.uncaught (.runOutOfContext a), h, _) =>
    (.response (renderWithErrorJ (.s "delegate") argDict (pyStrOfArgs a)), h)
  | (.raisedNone, h, _) => (.pyError, h)

/-! ## Token budget (`TokenBudget` and `run_agent`) -/

/-- Embeds the `TokenBudget` class: a static quota and the running counter
(initially 0). -/
structure TokenBudget where
  quota : Nat
  n_tokens : Nat
deriving DecidableEq

/-- Embeds the `+=` of `TokenBudget.increment`: the only operation that
changes the counter. -/
def increment (b : TokenBudget) (n : Nat) : TokenBudget :=
  { b with n_tokens := b.n_tokens + n }

/-- Embeds `TokenBudget._check`: `sys.exit` fires iff the counter strictly
exceeds the quota. -/
def checkAborts (b : TokenBudget) : Bool :=
  b.quota < b.n_tokens

/-- Result of feeding a sequence of increments to one budget: either all
increments were processed, or `sys.exit` fired with the given counter state
and the unprocessed remainder of the sequence. -/
inductive BudgetRun where
  | finished (b : TokenBudget)
  | aborted (b : TokenBudget) (rest : List Nat)
deriving DecidableEq

/-- Feed increments one at a time, as the `run_agent` subscribers do
(`increment()` per generated token, `increment(num_eval)` per completed
generation), stopping the run when `_check` exits. -/
def budgetRun (b : TokenBudget) : List Nat → BudgetRun
  | [] => .finished b
  | n :: rest =>
    let b1 := increment b n
    if checkAborts b1 then .aborted b1 rest else budgetRun b1 rest

/-! ## Helper lemmas -/

/-- String concatenation is associative. -/
theorem strAppend_assoc (a b c : String) : a ++ b ++ c = a ++ (b ++ c) := by
  apply String.ext
  simp [String.data_append, List.append_assoc]

/-- The indexed fold of `renderChat` equals the reference recursion
`chatBody`, for any starting index and accumulator. -/
theorem renderChat_foldl_chatBody (spec : TemplateSpec) :
    ∀ (msgs : List PyMessage) (i : Nat) (acc : String),
      ((List.enumFrom i msgs).foldl
        (fun acc p =>
          let template := if p.1 % 2 = 0 then spec.question else spec.answer
          acc ++ strReplace template "%message" (strMsg p.2)) acc)
      = acc ++ chatBody spec i msgs := by
  intro msgs
  induction msgs with
  | nil => intro i acc
           simp [chatBody, List.enumFrom]
  | cons m rest ih =>
    intro i acc
    simp only [List.enumFrom, List.foldl, chatBody]
    rw [ih, strAppend_assoc]

/-- The message blocks ignore roles: relabelling every role leaves
`chatBody` unchanged. -/
theorem chatBody_role_blind (spec : TemplateSpec) (f : PyMessage → String) :
    ∀ (msgs : List PyMessage) (i : Nat),
      chatBody spec i (msgs.map fun m => ⟨m.sections, f m⟩) = chatBody spec i msgs := by
  intro msgs
  induction msgs with
  | nil => intro i
           rfl
  | cons m rest ih =>
    intro i
    simp only [List.map, chatBody, strMsg]
    rw [ih]

/-! ## C10 -/

/-- C10: `ChatRendererToString` picks the question template for messages at
even positions and the answer template at odd positions, by index parity
alone; the role tags carried by the messages have no effect on the rendered
output. -/
theorem renderer_parity_role_blind (spec : TemplateSpec) (useBos : Bool)
    (sys : String) (msgs : List PyMessage) (f : PyMessage → String) :
    renderChat spec useBos sys (msgs.map fun m => ⟨m.sections, f m⟩) =
      renderChat spec useBos sys msgs
    ∧ renderChat spec useBos sys msgs =
        (if useBos then spec.startOfText else "") ++
        ((if sys = "" then "" else strReplace spec.systemMessage "%message" sys) ++
         (chatBody spec 0 msgs ++ spec.promptSuffix)) := by
  have hbody : ∀ (ms : List PyMessage),
      renderChat spec useBos sys ms =
        (if useBos then spec.startOfText else "") ++
        ((if sys = "" then "" else strReplace spec.systemMessage "%message" sys) ++
         (chatBody spec 0 ms ++ spec.promptSuffix)) := by
    intro ms
    simp only [renderChat]
    rw [show List.enum ms = List.enumFrom 0 ms from rfl]
    rw [renderChat_foldl_chatBody spec ms 0]
    cases useBos with
    | false => simp [strAppend_assoc]
    | true => simp [strAppend_assoc]
  constructor
  · rw [hbody, hbody, chatBody_role_blind]
  · exact hbody msgs

/-! ## C3 -/

/-- C3: when the first parse attempt on a command body fails, exactly one
repair attempt is made, by appending a single closing brace and retrying
once; a successful retry's result is returned and a failed retry surfaces
the original first-attempt error.  This is the complete per-call contract
both of `SimpleTagBasedToolUse.parse` (over its inner `GenericToolUse.parse`
attempts) and of `ToolAugmentedTextCompleter._parse` (over its inner
`tool_use_helper.parse` attempts). -/
theorem parse_repair_contract (body : String) (e : PyValueError)
    (h : genericParse body = .error e) :
    (simpleParse body =
      match genericParse (body ++ "\x7d") with
      | .ok r => .ok r
      | .error _ => .error e)
    ∧ ∀ e1, simpleParse body = .error e1 →
        completerParse body =
          match simpleParse (body ++ "\x7d") with
          | .ok r => .ok r
          | .error _ => .error e1 := by
  constructor
  · unfold simpleParse
    rw [h]
  · intro e1 h1
    unfold completerParse
    rw [h1]

/-- Witness for C3 at concrete bodies: a truncated payload that the single
repair fixes, and a hopeless payload where the original error is surfaced
by both parse entry points. -/
theorem parse_repair_contract_witness :
    simpleParse "\x7b\"tool_name\": \"a\"" = .ok (JVal.s "a", JVal.o [])
    ∧ completerParse "no json here" = .error (.invalidJson "no json here") := by
  constructor
  · have h := (parse_repair_contract "\x7b\"tool_name\": \"a\""
      (.invalidJson "\x7b\"tool_name\": \"a\"") (by rfl)).1
    rw [h]
    rfl
  · have h := (parse_repair_contract "no json here"
      (.invalidJson "no json here") (by rfl)).2
        (.invalidJson "no json here") (by rfl)
    rw [h]
    rfl

/-! ## C4 -/

/-- C4: when the tag protocol finds no command region in a completion text,
the classifier returns `RegularResponse` with the text unchanged. -/
theorem classifier_no_command_regular (agent : PyAgent) (raw : String)
    (h : findToolUse raw = none) :
    finalize agent raw = .regular raw := by
  unfold finalize
  rw [h]

/-- Witness for C4 on a concrete delimiter-free text. -/
theorem classifier_no_command_regular_witness :
    finalize ⟨[], none, []⟩ "some normal text" = .regular "some normal text" :=
  classifier_no_command_regular ⟨[], none, []⟩ "some normal text" (by rfl)

/-! ## C8 -/

/-- One step of a budget run. -/
theorem budgetRun_cons (q t n : Nat) (rest : List Nat) :
    budgetRun ⟨q, t⟩ (n :: rest) =
      if q < t + n then .aborted ⟨q, t + n⟩ rest else budgetRun ⟨q, t + n⟩ rest := by
  simp [budgetRun, increment, checkAborts]

/-- Complete characterization of a budget run, generalized over the counter
value `t` already accumulated. -/
theorem budgetRun_spec (q : Nat) :
    ∀ (incs : List Nat) (t : Nat),
      ((∀ k, t + (incs.take k).sum ≤ q) →
        budgetRun ⟨q, t⟩ incs = .finished ⟨q, t + incs.sum⟩)
      ∧ (t ≤ q → ∀ b rest, budgetRun ⟨q, t⟩ incs = .aborted b rest →
          ∃ pre n, incs = pre ++ n :: rest ∧ b = ⟨q, t + pre.sum + n⟩ ∧
            q < t + pre.sum + n ∧ ∀ k ≤ pre.length, t + (incs.take k).sum ≤ q)
      ∧ (t ≤ q → ∀ b, budgetRun ⟨q, t⟩ incs = .finished b →
          b = ⟨q, t + incs.sum⟩ ∧ ∀ k, t + (incs.take k).sum ≤ q) := by
  intro incs
  induction incs with
  | nil =>
    intro t
    refine ⟨fun _ => by simp [budgetRun], fun _ b rest h => by simp [budgetRun] at h,
      fun ht b h => ?_⟩
    simp [budgetRun] at h
    subst h
    exact ⟨by simp, fun k => by simpa using ht⟩
  | cons n rest ih =>
    intro t
    by_cases hq : q < t + n
    · refine ⟨fun hall => ?_, fun ht b rest' habort => ?_, fun ht b hfin => ?_⟩
      · exact absurd (by simpa using hall 1) (by omega)
      · rw [budgetRun_cons, if_pos hq] at habort
        injection habort with hb hrest
        refine ⟨[], n, by simp [hrest], by rw [← hb]; simp, by simpa using hq, ?_⟩
        intro k hk
        obtain rfl : k = 0 := Nat.le_zero.mp (by simpa using hk)
        simpa using ht
      · rw [budgetRun_cons, if_pos hq] at hfin
        exact absurd hfin (by simp)
    · have hle : t + n ≤ q := by omega
      refine ⟨fun hall => ?_, fun ht b rest' habort => ?_, fun ht b hfin => ?_⟩
      · have h1 := (ih (t + n)).1
        have hall2 : ∀ k, t + n + (rest.take k).sum ≤ q := by
          intro k
          have := hall (k + 1)
          simpa [Nat.add_assoc] using this
        rw [budgetRun_cons, if_neg hq, h1 hall2]
        congr 1
        simp [Nat.add_assoc]
      · rw [budgetRun_cons, if_neg hq] at habort
        obtain ⟨pre, m, hsplit, hb, hlt, hall⟩ := (ih (t + n)).2.1 hle b rest' habort
        refine ⟨n :: pre, m, by simp [hsplit], ?_, ?_, ?_⟩
        · rw [hb]
          have : t + n + pre.sum + m = t + (n :: pre).sum + m := by
            simp [List.sum_cons]
            omega
          rw [this]
        · simp only [List.sum_cons]
          omega
        · intro k hk
          match k with
          | 0 => simpa using ht
          | j + 1 =>
            have hj : j ≤ pre.length := by simpa using hk
            have := hall j hj
            simp only [List.take_succ_cons, List.sum_cons]
            omega
      · rw [budgetRun_cons, if_neg hq] at hfin
        obtain ⟨hb, hall⟩ := (ih (t + n)).2.2 hle b hfin
        constructor
        · rw [hb]
          have : t + n + rest.sum = t + (n :: rest).sum := by
            simp [List.sum_cons]
            omega
          rw [this]
        · intro k
          match k with
          | 0 => simpa using ht
          | j + 1 =>
            have := hall j
            simp only [List.take_succ_cons, List.sum_cons]
            omega

/-- C8: the only counter operation is `increment`, which raises the counter
by exactly its argument (never lowers or resets it); a run aborts at
precisely the first increment that lifts the cumulative counter strictly
above the quota — every counter value before it is at or below the quota —
and a run with all prefix sums at or below the quota never aborts. -/
theorem token_budget_monotone_first_excess (q : Nat) (incs : List Nat) :
    (∀ (b : TokenBudget) (n : Nat),
        (increment b n).n_tokens = b.n_tokens + n ∧ b.n_tokens ≤ (increment b n).n_tokens)
    ∧ ((∀ k, (incs.take k).sum ≤ q) → budgetRun ⟨q, 0⟩ incs = .finished ⟨q, incs.sum⟩)
    ∧ (∀ b rest, budgetRun ⟨q, 0⟩ incs = .aborted b rest →
        ∃ pre n, incs = pre ++ n :: rest ∧ b = ⟨q, pre.sum + n⟩ ∧
          q < pre.sum + n ∧ ∀ k ≤ pre.length, (incs.take k).sum ≤ q)
    ∧ (∀ b, budgetRun ⟨q, 0⟩ incs = .finished b →
        b = ⟨q, incs.sum⟩ ∧ ∀ k, (incs.take k).sum ≤ q) := by
  have h := budgetRun_spec q incs 0
  refine ⟨fun b n => ⟨rfl, by simp [increment]⟩, ?_, ?_, ?_⟩
  · intro hall
    have := h.1 (by simpa using hall)
    simpa using this
  · intro b rest habort
    obtain ⟨pre, n, h1, h2, h3, h4⟩ := h.2.1 (Nat.zero_le q) b rest (by simpa using habort)
    exact ⟨pre, n, h1, by simpa using h2, by simpa using h3, fun k hk => by simpa using h4 k hk⟩
  · intro b hfin
    obtain ⟨h1, h2⟩ := h.2.2 (Nat.zero_le q) b (by simpa using hfin)
    exact ⟨by simpa using h1, fun k => by simpa using h2 k⟩

/-- Witness for C8: with quota 100 and increments 60, 50, 7 the run aborts
exactly at the second increment, at counter 110, with the prior counter
value 60 at or below the quota. -/
theorem token_budget_witness :
    ∃ pre n, [60, 50, 7] = pre ++ n :: [7] ∧ (⟨100, 110⟩ : TokenBudget) = ⟨100, pre.sum + n⟩ ∧
      100 < pre.sum + n ∧ ∀ k ≤ pre.length, (([60, 50, 7] : List Nat).take k).sum ≤ 100 :=
  (token_budget_monotone_first_excess 100 [60, 50, 7]).2.2.1 ⟨100, 110⟩ [7] (by rfl)

/-! ## C2 -/

/-- C2 (failing-input evaluation): feeding the filter the split
`["abc", "<START>{}<END>", "xyz"]` of the string `S = "abc<START>{}<END>xyz"`
forwards `"abc"` plus the entire command region — start tag, body and end
tag included — and then suppresses the trailing `"xyz"` (the buffer was
cleared past the region, so the end tag is never seen and the filter stays
in command mode), instead of the spec-mandated `S` with the command region
removed, which is `"abcxyz"`. -/
theorem stream_filter_leaks_command :
    streamRun ["abc", "<|tool_use_start|>\x7b\x7d<|tool_use_end|>", "xyz"]
      = "abc<|tool_use_start|>\x7b\x7d<|tool_use_end|>"
    ∧ specFiltered "abc<|tool_use_start|>\x7b\x7d<|tool_use_end|>xyz" = "abcxyz"
    ∧ streamRun ["abc", "<|tool_use_start|>\x7b\x7d<|tool_use_end|>", "xyz"]
        ≠ specFiltered "abc<|tool_use_start|>\x7b\x7d<|tool_use_end|>xyz" := by
  refine ⟨by rfl, by rfl, by decide⟩

/-! ## C6 -/

/-- C6 (failing-input evaluation): for the unknown action name
`"frobnicate"`, `ToolCaller` does produce the protocol error rendering that
carries the `ToolNotFound` text, but the round does not survive it: the
post-handler `do_after_tool` is invoked with the wrong arity, so
`ResponseProcessor` raises `TypeError` out of the round, and
`Agent.__call__` itself raises `TypeError` while preparing the prompt,
before any round runs. -/
theorem unknown_tool_round_crashes :
    toolCallerCall [("tool1", fun _ => .ok "result1"), ("tool2", fun _ => .ok "result2")]
        "frobnicate" (JVal.o [])
      = renderWithErrorJ (.s "frobnicate") (.o [])
          (pyStrOfArgs ["Tool \"frobnicate\" not found", "frobnicate"])
    ∧ processResponse [("tool1", fun _ => .ok "result1"), ("tool2", fun _ => .ok "result2")]
        "<|tool_use_start|>\x7b\"tool_name\": \"frobnicate\", \"args\": \x7b\x7d\x7d<|tool_use_end|>"
        ⟨[], []⟩
      = .error (.typeError
          "do_after_tool() missing 1 required positional argument: action_response")
    ∧ agentCall
        (fun _ =>
          "<|tool_use_start|>\x7b\"tool_name\": \"frobnicate\", \"args\": \x7b\x7d\x7d<|tool_use_end|>")
        [("tool1", fun _ => .ok "result1"), ("tool2", fun _ => .ok "result2")] "" "" 5
      = .error (.typeError "text_message() missing 1 required positional argument: role") := by
  refine ⟨by rfl, by rfl, by rfl⟩

/-! ## C7 -/

/-- C7 (failing-input evaluation): a response whose command name is
`done_tool` is classified as the `SolutionComplete` control signal by
`ResponseProcessor._perform_action` before any actor runs, but the loop
never reaches that point: `Agent.__call__` raises `TypeError` while
building its system message (and would again while rendering the scratch
and reading the unset `tool_use_helper` attribute), so no round halts with
a Solution. -/
theorem done_tool_round_crashes :
    processResponse [("tool1", fun _ => .ok "result1")]
        "<|tool_use_start|>\x7b\"tool_name\": \"done_tool\", \"args\": \x7b\x7d\x7d<|tool_use_end|>"
        ⟨[], []⟩
      = .ok (.solution (JVal.o []))
    ∧ agentCall
        (fun _ =>
          "<|tool_use_start|>\x7b\"tool_name\": \"done_tool\", \"args\": \x7b\x7d\x7d<|tool_use_end|>")
        [("tool1", fun _ => .ok "result1")] "" "" 5
      = .error (.typeError "text_message() missing 1 required positional argument: role") := by
  refine ⟨by rfl, by rfl⟩

/-! ## C5 -/

/-- Every attempt of the delegation loop is run against the snapshot: the
ghost trace holds at most `r` entries, each equal to the backup. -/
theorem delegateLoop_trace (child : ChildNode) (backup : List String) :
    ∀ (r attempt : Nat) (exc : Option OverflowExc) (h : List String),
      (delegateLoop child backup attempt r exc h).2.2.length ≤ r ∧
      ∀ a ∈ (delegateLoop child backup attempt r exc h).2.2, a = backup := by
  intro r
  induction r with
  | zero =>
    intro attempt exc h
    constructor
    · cases exc <;> simp [delegateLoop]
    · cases exc <;> simp [delegateLoop]
  | succ r ih =>
    intro attempt exc h
    rcases hc : child attempt backup with ⟨res, h2⟩
    match res with
    | .ok result =>
      constructor
      · simp [delegateLoop, hc]
      · simp [delegateLoop, hc]
    | .error (.runOutOfContext a) =>
      rcases hrec : delegateLoop child backup (attempt + 1) r (some (.runOutOfContext a)) h2
        with ⟨out, hf, trace⟩
      have ihx := ih (attempt + 1) (some (.runOutOfContext a)) h2
      rw [hrec] at ihx
      constructor
      · simp only [delegateLoop, hc, hrec]
        simpa using ihx.1
      · intro x hx
        simp only [delegateLoop, hc, hrec] at hx
        rcases List.mem_cons.mp hx with hx1 | hx1
        · exact hx1
        · exact ihx.2 x hx1
    | .error (.parentOutOfContext a) =>
      constructor
      · simp [delegateLoop, hc]
      · simp [delegateLoop, hc]

/-- C5: delegation snapshots the parent history once before the first
attempt and restores it before every attempt (each attempt's input history
is the snapshot, and there are at most 3 attempts); when all three attempts
raise the context-overflow condition, the last one is re-raised; and in the
fail-fail-succeed scenario with a child that leaves the parent history
alone, `Delegator.__call__` ends with the parent history equal to the
pre-delegation snapshot and returns exactly one rendered success section. -/
theorem delegation_snapshot_retry :
    (∀ (child : ChildNode) (hist : List String),
        (delegateRun child hist).2.2.length ≤ 3 ∧
        ∀ a ∈ (delegateRun child hist).2.2, a = hist)
    ∧ (∀ (child : ChildNode) (hist : List String) (a1 a2 a3 : List String),
        (child 0 hist).1 = .error (.runOutOfContext a1) →
        (child 1 hist).1 = .error (.runOutOfContext a2) →
        (child 2 hist).1 = .error (.runOutOfContext a3) →
        (delegateRun child hist).1 = .overflow (.runOutOfContext a3))
    ∧ (∀ (child : ChildNode) (hist : List String) (argDict : JVal)
         (a1 a2 : List String) (r : String),
        (child 0 hist).1 = .error (.runOutOfContext a1) →
        (child 1 hist).1 = .error (.runOutOfContext a2) →
        child 2 hist = (.ok r, hist) →
        delegatorCall child hist argDict =
          (.response (renderWithSuccessJ (.s "delegate") argDict r), hist)) := by
  refine ⟨fun child hist => delegateLoop_trace child hist 3 0 none hist, ?_, ?_⟩
  · intro child hist a1 a2 a3 h1 h2 h3
    unfold delegateRun
    rcases hc0 : child 0 hist with ⟨r0, s0⟩
    rcases hc1 : child 1 hist with ⟨r1, s1⟩
    rcases hc2 : child 2 hist with ⟨r2, s2⟩
    rw [hc0] at h1
    rw [hc1] at h2
    rw [hc2] at h3
    simp only at h1 h2 h3
    subst h1 h2 h3
    simp [delegateLoop, hc0, hc1, hc2]
  · intro child hist argDict a1 a2 r h1 h2 h3
    unfold delegatorCall delegateRun
    rcases hc0 : child 0 hist with ⟨r0, s0⟩
    rcases hc1 : child 1 hist with ⟨r1, s1⟩
    rw [hc0] at h1
    rw [hc1] at h2
    simp only at h1 h2
    subst h1 h2
    simp [delegateLoop, hc0, hc1, h3]

/-- Witness for C5: a child that overflows on its first two attempts and
succeeds on the third without touching the parent history; after delegation
the parent history equals the snapshot and the response is one success
rendering. -/
theorem delegation_snapshot_retry_witness :
    delegatorCall
      (fun attempt h =>
        if attempt ≥ 2 then (.ok "done", h)
        else (.error (.runOutOfContext ["out of context"]), h))
      ["m1"] (JVal.o [("name", "child")]) =
      (.response (renderWithSuccessJ (.s "delegate") (JVal.o [("name", "child")]) "done"),
       ["m1"]) :=
  delegation_snapshot_retry.2.2
    (fun attempt h =>
      if attempt ≥ 2 then (.ok "done", h)
      else (.error (.runOutOfContext ["out of context"]), h))
    ["m1"] (JVal.o [("name", "child")])
    ["out of context"] ["out of context"] "done" (by rfl) (by rfl) (by rfl)

/-! ## C9 -/

/-- Reading an appended list at an old index. -/
theorem getD_append_left {α : Type} (l l2 : List α) (i : Nat) (d : α)
    (h : i < l.length) : (l ++ l2).getD i d = l.getD i d := by
  simp [List.getD_eq_getElem?_getD, List.getElem?_append_left h]

/-- Reading a concatenation at the old length hits the appended element. -/
theorem getD_concat_self {α : Type} (l : List α) (x : α) (d : α) :
    (l ++ [x]).getD l.length d = x := by
  simp [List.getD_eq_getElem?_getD, List.getElem?_concat_length]

/-- Setting one index leaves reads at other indices unchanged. -/
theorem getD_set_ne {α : Type} (l : List α) (i j : Nat) (a : α) (d : α)
    (h : i ≠ j) : (l.set i a).getD j d = l.getD j d := by
  simp [List.getD_eq_getElem?_getD, List.getElem?_set_ne h]

/-- C9 (counterexample): `ChatHistory.clone` does not deep-copy messages.
After cloning a one-message history, mutating the section content of the
message reachable from the original changes the clone's rendered text as
well, contradicting the claim that mutations reachable from one copy leave
the other copy unchanged. -/
theorem clone_shares_messages_counterexample :
    fullTextR ⟨"Q%message", "A%message", "S%message", "", ""⟩
        (mutateMessage (cloneHistory ⟨[[0]], [⟨["hello"], "user"⟩]⟩ ⟨"", 0⟩).1 0 ["changed"])
        (cloneHistory ⟨[[0]], [⟨["hello"], "user"⟩]⟩ ⟨"", 0⟩).2
      ≠ fullTextR ⟨"Q%message", "A%message", "S%message", "", ""⟩
        (cloneHistory ⟨[[0]], [⟨["hello"], "user"⟩]⟩ ⟨"", 0⟩).1
        (cloneHistory ⟨[[0]], [⟨["hello"], "user"⟩]⟩ ⟨"", 0⟩).2 := by
  decide

/-- C9 (amended): `clone` copies the message list, so the copy initially
renders the same text and appending a message to either copy leaves the
other copy's rendered text unchanged; but the `Message` objects are shared
— the clone's list holds exactly the same message references as the
original's. -/
theorem clone_append_independent (spec : TemplateSpec) (heap : MsgHeap)
    (h : ChatHistoryR) (m : PyMessage)
    (href : h.listRef < heap.lists.length)
    (hwf : ∀ mid ∈ heap.lists.getD h.listRef [], mid < heap.msgs.length) :
    fullTextR spec (cloneHistory heap h).1 (cloneHistory heap h).2 =
      fullTextR spec (cloneHistory heap h).1 h
    ∧ fullTextR spec (addMessageR (cloneHistory heap h).1 (cloneHistory heap h).2 m) h =
        fullTextR spec (cloneHistory heap h).1 h
    ∧ fullTextR spec (addMessageR (cloneHistory heap h).1 h m) (cloneHistory heap h).2 =
        fullTextR spec (cloneHistory heap h).1 (cloneHistory heap h).2
    ∧ (cloneHistory heap h).1.lists.getD (cloneHistory heap h).2.listRef [] =
        heap.lists.getD h.listRef [] := by
  have hF1 : (heap.lists ++ [heap.lists.getD h.listRef []]).getD h.listRef [] =
      heap.lists.getD h.listRef [] :=
    getD_append_left heap.lists _ h.listRef [] href
  have hF2 : (heap.lists ++ [heap.lists.getD h.listRef []]).getD heap.lists.length [] =
      heap.lists.getD h.listRef [] :=
    getD_concat_self heap.lists _ []
  have hne : heap.lists.length ≠ h.listRef := by omega
  have hmsgs : ∀ (l : List Nat), (∀ mid ∈ l, mid < heap.msgs.length) →
      l.map (fun mid => (heap.msgs ++ [m]).getD mid ⟨[], ""⟩) =
      l.map (fun mid => heap.msgs.getD mid ⟨[], ""⟩) := by
    intro l hl
    apply List.map_congr_left
    intro a ha
    exact getD_append_left heap.msgs [m] a ⟨[], ""⟩ (hl a ha)
  refine ⟨?_, ?_, ?_, ?_⟩
  · unfold fullTextR historyMessages cloneHistory
    simp only
    rw [hF1, hF2]
  · unfold fullTextR historyMessages addMessageR cloneHistory
    simp only
    rw [hF2]
    rw [getD_set_ne _ _ _ _ _ hne, hF1]
    rw [hmsgs _ hwf]
  · unfold fullTextR historyMessages addMessageR cloneHistory
    simp only
    rw [hF1]
    rw [getD_set_ne _ _ _ _ _ (by omega : h.listRef ≠ heap.lists.length), hF2]
    rw [hmsgs _ hwf]
  · unfold cloneHistory
    simp only
    exact hF2

/-- Witness for the amended C9 on a concrete one-message history. -/
theorem clone_append_independent_witness :
    fullTextR ⟨"Q%message", "A%message", "S%message", "", ""⟩
        (addMessageR (cloneHistory ⟨[[0]], [⟨["hello"], "user"⟩]⟩ ⟨"", 0⟩).1
          (cloneHistory ⟨[[0]], [⟨["hello"], "user"⟩]⟩ ⟨"", 0⟩).2 ⟨["next"], "user"⟩)
        ⟨"", 0⟩
      = fullTextR ⟨"Q%message", "A%message", "S%message", "", ""⟩
        (cloneHistory ⟨[[0]], [⟨["hello"], "user"⟩]⟩ ⟨"", 0⟩).1 ⟨"", 0⟩ :=
  (clone_append_independent ⟨"Q%message", "A%message", "S%message", "", ""⟩
    ⟨[[0]], [⟨["hello"], "user"⟩]⟩ ⟨"", 0⟩ ⟨["next"], "user"⟩
    (by decide) (by decide)).2.1

/-! ## C1: helper lemmas for the round trip -/

/-- Rebuilding a string from its character list is the identity. -/
theorem strMk_data (s : String) : (⟨s.data⟩ : String) = s := by
  cases s
  rfl

/-- A list is a (boolean) prefix of itself followed by anything. -/
theorem isPrefixOf_append_self (a b : List Char) : a.isPrefixOf (a ++ b) = true := by
  rw [List.isPrefixOf_iff_prefix]
  exact List.prefix_append a b

/-- `skipWs` does nothing on a head that is not whitespace. -/
theorem skipWs_not_ws (c : Char) (l : List Char) (h : isWsChar c = false) :
    skipWs (c :: l) = c :: l := by
  simp [skipWs, h]

/-- `skipWs` drops a leading space. -/
theorem skipWs_space (l : List Char) : skipWs (' ' :: l) = skipWs l := rfl

/-- The escape encoding of a character list parses back to exactly that
list, leaving the input after the closing quote untouched. -/
theorem parseStringGo_escape :
    ∀ (s rest : List Char),
      parseStringGo false (escapeChars s ++ '"' :: rest) = some (s, rest)
  | [], rest => rfl
  | c :: cs, rest => by
    by_cases h1 : c = '\\'
    · subst h1
      simp [escapeChars, jsonEscapeChar, parseStringGo, unescapeChar,
        parseStringGo_escape cs rest]
    · by_cases h2 : c = '"'
      · subst h2
        simp [escapeChars, jsonEscapeChar, parseStringGo, unescapeChar,
          parseStringGo_escape cs rest]
      · simp [escapeChars, jsonEscapeChar, h1, h2, parseStringGo,
          parseStringGo_escape cs rest]

/-- A serialized string parses back to itself. -/
theorem parseJString_quote (s : String) (rest : List Char) :
    parseJString (quoteStr s ++ rest) = some (s, rest) := by
  have hshape : quoteStr s ++ rest = '"' :: (escapeChars s.data ++ '"' :: rest) := by
    simp [quoteStr, List.append_assoc]
  rw [hshape]
  simp [parseJString, parseStringBody, parseStringGo_escape s.data rest, strMk_data]

theorem skipWs_quote (l : List Char) : skipWs ('"' :: l) = '"' :: l := rfl

theorem skipWs_colon (l : List Char) : skipWs (':' :: l) = ':' :: l := rfl

theorem skipWs_comma (l : List Char) : skipWs (',' :: l) = ',' :: l := rfl

theorem skipWs_rbrace (l : List Char) : skipWs ('\x7d' :: l) = '\x7d' :: l := rfl

theorem skipWs_lbrace (l : List Char) : skipWs ('\x7b' :: l) = '\x7b' :: l := rfl

/-- A serialized string starts with a quote, so `skipWs` leaves it alone. -/
theorem skipWs_quoteStr (s : String) (x : List Char) :
    skipWs (quoteStr s ++ x) = quoteStr s ++ x := by
  rw [show quoteStr s ++ x = '"' :: (escapeChars s.data ++ '"' :: x) by
    simp [quoteStr, List.append_assoc]]
  rfl

/-- A serialized member starts with a quote, so `skipWs` leaves it alone. -/
theorem skipWs_memberChars1 (kv : String × String) (x : List Char) :
    skipWs (memberChars1 kv ++ x) = memberChars1 kv ++ x := by
  rw [show memberChars1 kv ++ x = quoteStr kv.1 ++ ((':' :: ' ' :: quoteStr kv.2) ++ x) by
    simp [memberChars1, List.append_assoc]]
  rw [skipWs_quoteStr]

/-- The serialized members of a non-empty flat object parse back to exactly
those members, consuming the closing brace. -/
theorem parseFlatMembers_dumps :
    ∀ (kvs : List (String × String)) (rest : List Char) (fuel : Nat),
      kvs ≠ [] → kvs.length ≤ fuel →
      parseFlatMembers fuel (membersChars kvs ++ '\x7d' :: rest) = some (kvs, rest)
  | [], _, _, hne, _ => absurd rfl hne
  | (k, v) :: t, rest, fuel, _, hf => by
    obtain ⟨f, rfl⟩ : ∃ f, fuel = f + 1 := by
      refine ⟨fuel - 1, ?_⟩
      have := hf
      simp [List.length_cons] at this
      omega
    have hsh : membersChars ((k, v) :: t) ++ '\x7d' :: rest =
        quoteStr k ++ (':' :: ' ' :: (quoteStr v ++ (membersTail t ++ '\x7d' :: rest))) := by
      simp [membersChars, memberChars1, List.append_assoc]
    rw [hsh]
    cases t with
    | nil =>
      simp [parseFlatMembers, parseJString_quote, skipWs_colon, skipWs_space,
        skipWs_quoteStr, skipWs_rbrace, membersTail]
    | cons kv2 t2 =>
      have hih := parseFlatMembers_dumps (kv2 :: t2) rest f (by simp)
        (by simpa using Nat.le_of_succ_le_succ (by simpa [List.length_cons] using hf))
      have hih2 : parseFlatMembers f (memberChars1 kv2 ++ (membersTail t2 ++ '\x7d' :: rest)) =
          some (kv2 :: t2, rest) := by
        rw [show memberChars1 kv2 ++ (membersTail t2 ++ '\x7d' :: rest) =
            membersChars (kv2 :: t2) ++ '\x7d' :: rest by
          simp [membersChars, List.append_assoc]]
        exact hih
      simp [parseFlatMembers, parseJString_quote, skipWs_colon, skipWs_space,
        skipWs_quoteStr, skipWs_comma, skipWs_memberChars1, membersTail,
        List.append_assoc, hih2]

/-- A serialized flat object parses back to itself. -/
theorem parseFlatObj_dumps (kvs : List (String × String)) (rest : List Char)
    (fuel : Nat) (hf : kvs.length ≤ fuel) :
    parseFlatObj fuel (dumpsFlatObj kvs ++ rest) = some (kvs, rest) := by
  cases kvs with
  | nil =>
    simp [dumpsFlatObj, membersChars, parseFlatObj, skipWs_rbrace]
  | cons kv t =>
    have hsh : dumpsFlatObj (kv :: t) ++ rest =
        '\x7b' :: (memberChars1 kv ++ (membersTail t ++ '\x7d' :: rest)) := by
      simp [dumpsFlatObj, membersChars, List.append_assoc]
    have hmem : parseFlatMembers fuel (memberChars1 kv ++ (membersTail t ++ '\x7d' :: rest)) =
        some (kv :: t, rest) := by
      rw [show memberChars1 kv ++ (membersTail t ++ '\x7d' :: rest) =
          membersChars (kv :: t) ++ '\x7d' :: rest by
        simp [membersChars, List.append_assoc]]
      exact parseFlatMembers_dumps (kv :: t) rest fuel (by simp) hf
    have hq : ∃ u, memberChars1 kv ++ (membersTail t ++ '\x7d' :: rest) = '"' :: u :=
      ⟨escapeChars kv.1.data ++ '"' :: (':' :: ' ' :: quoteStr kv.2 ++
        (membersTail t ++ '\x7d' :: rest)), by
        simp [memberChars1, quoteStr, List.append_assoc]⟩
    obtain ⟨u, hu⟩ := hq
    rw [hsh]
    rw [hu] at hmem ⊢
    simp [parseFlatObj, skipWs_quote, hmem]

/-- A serialized flat object starts with a brace, so `skipWs` leaves it
alone. -/
theorem skipWs_dumpsFlatObj (kvs : List (String × String)) (x : List Char) :
    skipWs (dumpsFlatObj kvs ++ x) = dumpsFlatObj kvs ++ x := by
  rw [show dumpsFlatObj kvs ++ x = '\x7b' :: (membersChars kvs ++ '\x7d' :: x) by
    simp [dumpsFlatObj, List.append_assoc]]
  exact skipWs_lbrace _

/-- A serialized string parses back to itself as a value. -/
theorem parseJVal_quoteStr (fuel : Nat) (s : String) (rest : List Char) :
    parseJVal fuel (quoteStr s ++ rest) = some (.s s, rest) := by
  rw [show quoteStr s ++ rest = '"' :: (escapeChars s.data ++ '"' :: rest) by
    simp [quoteStr, List.append_assoc]]
  simp [parseJVal, parseJString, parseStringBody, parseStringGo_escape s.data rest, strMk_data]

/-- A serialized flat object parses back to itself as a value. -/
theorem parseJVal_obj (args : List (String × String)) (rest : List Char)
    (fuel : Nat) (hf : args.length ≤ fuel) :
    parseJVal fuel (dumpsFlatObj args ++ rest) = some (.o args, rest) := by
  have h := parseFlatObj_dumps args rest fuel hf
  rw [show dumpsFlatObj args ++ rest = '\x7b' :: (membersChars args ++ '\x7d' :: rest) by
    simp [dumpsFlatObj, List.append_assoc]] at h ⊢
  simp [parseJVal, h]

/-- On an input opening with a brace and a serialized first key, the
top-level object parser hands over to the member parser. -/
theorem parseTopObj_quoteStr_member (fuel : Nat) (s : String) (x : List Char) :
    parseTopObj fuel ('\x7b' :: (quoteStr s ++ x)) = parseTopMembers fuel (quoteStr s ++ x) := by
  have hu : quoteStr s ++ x = '"' :: (escapeChars s.data ++ '"' :: x) := by
    simp [quoteStr, List.append_assoc]
  rw [hu]
  simp [parseTopObj, skipWs_lbrace, skipWs_quote]

/-- The members of the serialized tool-use payload parse back to the
`tool_name`/`args` pairs, consuming the whole input. -/
theorem parseTopMembers_toolUse (name : String) (args : List (String × String))
    (f : Nat) (hf : args.length + 1 ≤ f) :
    parseTopMembers (f + 1)
      (quoteStr "tool_name" ++ (':' :: ' ' :: (quoteStr name ++ (',' :: ' ' ::
        (quoteStr "args" ++ (':' :: ' ' :: (dumpsFlatObj args ++ ['\x7d'])))))))
      = some ([("tool_name", JVal.s name), ("args", JVal.o args)], []) := by
  obtain ⟨g, rfl⟩ : ∃ g, f = g + 1 := ⟨f - 1, by omega⟩
  have hobj := parseJVal_obj args ['\x7d'] g (by omega)
  simp [parseTopMembers, parseJString_quote, skipWs_colon, skipWs_space, skipWs_comma,
    skipWs_quoteStr, skipWs_rbrace, skipWs_dumpsFlatObj, parseJVal_quoteStr, hobj]

/-- The character list of the serialized tool-use payload. -/
theorem dumpsToolUse_data (name : String) (args : List (String × String)) :
    (dumpsToolUse name args).data =
      '\x7b' :: (quoteStr "tool_name" ++ (':' :: ' ' :: (quoteStr name ++ (',' :: ' ' ::
        (quoteStr "args" ++ (':' :: ' ' :: (dumpsFlatObj args ++ ['\x7d']))))))) := by
  simp [dumpsToolUse, dumpsToolUseJ, dumpJVal, List.append_assoc]

/-- Each member serialization is at least one character long. -/
theorem membersChars_length_ge :
    ∀ (kvs : List (String × String)), kvs.length ≤ (membersChars kvs).length := by
  have h1 : ∀ (kv : String × String), 1 ≤ (memberChars1 kv).length := by
    intro kv
    simp [memberChars1, quoteStr]
  have htail : ∀ (kvs : List (String × String)), kvs.length ≤ (membersTail kvs).length := by
    intro kvs
    induction kvs with
    | nil => simp [membersTail]
    | cons kv t ih =>
      have := h1 kv
      simp only [membersTail, List.length_cons, List.length_append]
      omega
  intro kvs
  cases kvs with
  | nil => simp [membersChars]
  | cons kv t =>
    have := h1 kv
    have := htail t
    simp only [membersChars, List.length_cons, List.length_append]
    omega

/-- The serialized payload is long enough to cover the parser's fuel needs. -/
theorem dumpsToolUse_length_ge (name : String) (args : List (String × String)) :
    args.length + 1 ≤ (dumpsToolUse name args).data.length := by
  have := membersChars_length_ge args
  rw [dumpsToolUse_data]
  simp only [List.length_cons, List.length_append, dumpsFlatObj]
  omega

/-- `json.loads` of the serialized tool-use payload recovers the two pairs. -/
theorem jsonLoads_toolUse (name : String) (args : List (String × String)) :
    jsonLoads (dumpsToolUse name args) =
      some [("tool_name", JVal.s name), ("args", JVal.o args)] := by
  unfold jsonLoads
  have hlen := dumpsToolUse_length_ge name args
  obtain ⟨f, hfeq⟩ : ∃ f, (dumpsToolUse name args).data.length + 1 = f + 1 :=
    ⟨(dumpsToolUse name args).data.length, rfl⟩
  rw [hfeq, dumpsToolUse_data, parseTopObj_quoteStr_member,
    parseTopMembers_toolUse name args f (by omega)]
  rfl

/-- `GenericToolUse.parse` inverts the serialization of the render methods. -/
theorem genericParse_dumps (name : String) (args : List (String × String)) :
    genericParse (dumpsToolUse name args) = .ok (JVal.s name, JVal.o args) := by
  unfold genericParse
  rw [jsonLoads_toolUse]
  have h1 : (List.lookup "tool_name"
      [("tool_name", JVal.s name), ("args", JVal.o args)]) = some (JVal.s name) := rfl
  have h2 : (List.lookup "args"
      [("tool_name", JVal.s name), ("args", JVal.o args)]) = some (JVal.o args) := rfl
  simp [h1, h2]

/-- `SimpleTagBasedToolUse.parse` inverts the serialization (its first
attempt already succeeds, so no repair happens). -/
theorem simpleParse_dumps (name : String) (args : List (String × String)) :
    simpleParse (dumpsToolUse name args) = .ok (JVal.s name, JVal.o args) := by
  unfold simpleParse
  rw [genericParse_dumps]

/-- Escaping a `<`-free character list yields a `<`-free list. -/
theorem escapeChars_no_lt :
    ∀ (l : List Char), (∀ c ∈ l, c ≠ '<') → ∀ c ∈ escapeChars l, c ≠ '<'
  | [], _, c, hc => by
    simp [escapeChars] at hc
  | a :: t, h, c, hc => by
    simp only [escapeChars, List.mem_append] at hc
    rcases hc with hc | hc
    · have ha := h a (by simp)
      unfold jsonEscapeChar at hc
      by_cases h1 : a = '\\'
      · simp [h1] at hc
        simp [hc]
      · by_cases h2 : a = '"'
        · simp [h1, h2] at hc
          rcases hc with hc | hc <;> simp [hc]
        · simp [h1, h2] at hc
          rw [hc]
          exact ha
    · exact escapeChars_no_lt t (fun x hx => h x (List.mem_cons_of_mem a hx)) c hc

/-- A serialized string contains no `<` when the string has none. -/
theorem quoteStr_no_lt (s : String) (hs : NoLt s) : ∀ c ∈ quoteStr s, c ≠ '<' := by
  intro c hc
  simp only [quoteStr, List.mem_cons, List.mem_append, List.mem_singleton] at hc
  rcases hc with (h | h) | (h | h)
  · simp [h]
  · exact escapeChars_no_lt s.data hs c h
  · simp [h]
  · simp at h

/-- A serialized member contains no `<` when key and value have none. -/
theorem memberChars1_no_lt (kv : String × String) (h1 : NoLt kv.1) (h2 : NoLt kv.2) :
    ∀ c ∈ memberChars1 kv, c ≠ '<' := by
  intro c hc
  simp only [memberChars1, List.mem_append, List.mem_cons] at hc
  rcases hc with h | h | h | h
  · exact quoteStr_no_lt kv.1 h1 c h
  · simp [h]
  · simp [h]
  · exact quoteStr_no_lt kv.2 h2 c h

/-- The member tail contains no `<` when all keys and values have none. -/
theorem membersTail_no_lt :
    ∀ (kvs : List (String × String)), (∀ kv ∈ kvs, NoLt kv.1 ∧ NoLt kv.2) →
      ∀ c ∈ membersTail kvs, c ≠ '<' := by
  intro kvs
  induction kvs with
  | nil =>
    intro _ c hc
    simp [membersTail] at hc
  | cons kv t ih =>
    intro hkv c hc
    simp only [membersTail, List.mem_cons, List.mem_append] at hc
    rcases hc with h | h | h | h
    · simp [h]
    · simp [h]
    · exact memberChars1_no_lt kv (hkv kv (by simp)).1 (hkv kv (by simp)).2 c h
    · exact ih (fun x hx => hkv x (List.mem_cons_of_mem kv hx)) c h

/-- The serialized payload contains no `<` when the name, keys and values
have none. -/
theorem dumpsToolUse_no_lt (name : String) (args : List (String × String))
    (hname : NoLt name) (hargs : ∀ kv ∈ args, NoLt kv.1 ∧ NoLt kv.2) :
    ∀ c ∈ (dumpsToolUse name args).data, c ≠ '<' := by
  have hq1 : NoLt "tool_name" := by
    unfold NoLt
    decide
  have hq2 : NoLt "args" := by
    unfold NoLt
    decide
  have hmembers : ∀ c ∈ membersChars args, c ≠ '<' := by
    intro c hc
    cases args with
    | nil => simp [membersChars] at hc
    | cons kv t =>
      simp only [membersChars, List.mem_append] at hc
      rcases hc with h | h
      · exact memberChars1_no_lt kv (hargs kv (by simp)).1 (hargs kv (by simp)).2 c h
      · exact membersTail_no_lt t (fun x hx => hargs x (List.mem_cons_of_mem kv hx)) c h
  intro c hc
  rw [dumpsToolUse_data] at hc
  simp only [List.mem_cons, List.mem_append, List.mem_singleton, dumpsFlatObj] at hc
  rcases hc with h | h | h | h | h | h | h | h | h | h | h
  · simp [h]
  · exact quoteStr_no_lt "tool_name" hq1 c h
  · simp [h]
  · simp [h]
  · exact quoteStr_no_lt name hname c h
  · simp [h]
  · simp [h]
  · exact quoteStr_no_lt "args" hq2 c h
  · simp [h]
  · simp [h]
  · rcases h with ((h | h) | (h | h)) | (h | h)
    · simp [h]
    · exact hmembers c h
    · simp [h]
    · simp at h
    · simp [h]
    · simp at h

/-- `takeWhile` over characters other than `<` stops exactly at the `<`. -/
theorem takeWhile_append_lt :
    ∀ (a b : List Char), (∀ c ∈ a, c ≠ '<') →
      (a ++ '<' :: b).takeWhile (fun ch => ch != '<') = a := by
  intro a
  induction a with
  | nil => intro b _
           simp [List.takeWhile_cons]
  | cons c t ih =>
    intro b ha
    have hc : (c != '<') = true := by
      simpa using ha c (by simp)
    simp only [List.cons_append, List.takeWhile_cons, hc, if_true]
    rw [ih b (fun x hx => ha x (List.mem_cons_of_mem c hx))]

/-- `find` on a rendered command with a `<`-free body matches at offset 0,
spans the whole text and extracts exactly the body. -/
theorem findFrom_render (bodyL : List Char) (hb : ∀ c ∈ bodyL, c ≠ '<') :
    findFrom startTag.data endTag.data 0 (startTag.data ++ (bodyL ++ endTag.data)) =
      some (0, startTag.data.length + ((bodyL ++ endTag.data).takeWhile
        (fun ch => ch != '<')).length + endTag.data.length, ⟨bodyL⟩) := by
  have hend : endTag.data = '<' :: "|tool_use_end|>".data := rfl
  have htake : (bodyL ++ endTag.data).takeWhile (fun ch => ch != '<') = bodyL := by
    rw [hend]
    exact takeWhile_append_lt bodyL "|tool_use_end|>".data hb
  have hpre : startTag.data.isPrefixOf (startTag.data ++ (bodyL ++ endTag.data)) = true :=
    isPrefixOf_append_self _ _
  have hdrop1 : (startTag.data ++ (bodyL ++ endTag.data)).drop startTag.data.length =
      bodyL ++ endTag.data := List.drop_left _ _
  have hdrop2 : (bodyL ++ endTag.data).drop bodyL.length = endTag.data := List.drop_left _ _
  have hpre2 : endTag.data.isPrefixOf endTag.data = true := by
    simp [List.isPrefixOf_iff_prefix]
  unfold findFrom
  simp only [hpre, if_true, hdrop1, htake, hdrop2, hpre2]

/-! ## C1: the round trip -/

/-- C1: rendering a command with `render` (the JSON body of the tool name
and argument mapping wrapped in the start/end tags) and feeding it back
through the protocol — `find` extracts the command region, `parse` decodes
its body — recovers exactly the same name and argument mapping, for every
name and mapping free of the delimiter character `<` (a `<` inside a value
would end the regex body early, which is why the claim excludes delimiter
characters). -/
theorem render_parse_round_trip (name : String) (args : List (String × String))
    (hname : NoLt name)
    (hargs : ∀ kv ∈ args, NoLt kv.1 ∧ NoLt kv.2) :
    findToolUse (renderCall name args) =
      some (0, startTag.data.length + (dumpsToolUse name args).data.length +
        endTag.data.length, dumpsToolUse name args)
    ∧ simpleParse (dumpsToolUse name args) = .ok (JVal.s name, JVal.o args) := by
  constructor
  · unfold findToolUse
    have hdata : (renderCall name args).data =
        startTag.data ++ ((dumpsToolUse name args).data ++ endTag.data) := by
      simp [renderCall, renderCallJ, dumpsToolUse, String.data_append, List.append_assoc]
    rw [hdata]
    have h := findFrom_render (dumpsToolUse name args).data
      (dumpsToolUse_no_lt name args hname hargs)
    have htake : ((dumpsToolUse name args).data ++ endTag.data).takeWhile
        (fun ch => ch != '<') = (dumpsToolUse name args).data := by
      rw [show endTag.data = '<' :: "|tool_use_end|>".data from rfl]
      exact takeWhile_append_lt _ _ (dumpsToolUse_no_lt name args hname hargs)
    rw [h, htake, strMk_data]
  · exact simpleParse_dumps name args

/-- Witness for C1 on the spec's own example: the `add` command with two
arguments renders and parses back to itself. -/
theorem render_parse_round_trip_witness :
    findToolUse (renderCall "add" [("num1", "2"), ("num2", "3")]) =
      some (0, startTag.data.length +
        (dumpsToolUse "add" [("num1", "2"), ("num2", "3")]).data.length +
        endTag.data.length, dumpsToolUse "add" [("num1", "2"), ("num2", "3")])
    ∧ simpleParse (dumpsToolUse "add" [("num1", "2"), ("num2", "3")]) =
        .ok (JVal.s "add", JVal.o [("num1", "2"), ("num2", "3")]) :=
  render_parse_round_trip "add" [("num1", "2"), ("num2", "3")]
    (by unfold NoLt; decide)
    (by simp only [NoLt]; decide)

end Pygentify
